import Mathlib

/-!
Verification of the CORS policy evaluator of the melware repository
(file cors.go).  Go strings are embedded as lists of Unicode code
points (`GoStr`); the byte-level functions of the Go standard library
(strings.TrimSpace, strings.ToLower, strings.ToUpper,
strings.HasPrefix, strings.Join, http.CanonicalHeaderKey) are embedded
at the code-point level, covering the Latin-1 range that the CORS
component manipulates.  http.Header (a Go map from strings to string
slices) is embedded as a function from keys to value lists, the empty
list standing for an absent key.  The middleware body is embedded as a
step function from a policy and a request to the response state it
produces together with a flag telling whether the framework continues
to the downstream handler (mel aborts the pipeline when
AbortWithStatus has been called, and continues otherwise).
-/

namespace Melware

/-- A Go string, as its list of Unicode code points. -/
abbrev GoStr := List Nat

/-- Embeds a Lean string literal as a `GoStr`. -/
def gs (s : String) : GoStr := s.toList.map Char.toNat

/-- Models unicode.IsSpace on the Latin-1 range (the range used by the
CORS component): tab, newline, vertical tab, form feed, carriage
return, space, next line, no-break space. -/
def isSpaceChar (n : Nat) : Bool :=
  n == 9 || n == 10 || n == 11 || n == 12 || n == 13 ||
  n == 32 || n == 133 || n == 160

/-- Models unicode.ToLower on the ASCII range: uppercase letters map to
lowercase, everything else is unchanged. -/
def lowerChar (n : Nat) : Nat :=
  if 65 ≤ n ∧ n ≤ 90 then n + 32 else n

/-- Models unicode.ToUpper on the ASCII range. -/
def upperChar (n : Nat) : Nat :=
  if 97 ≤ n ∧ n ≤ 122 then n - 32 else n

/-- Models strings.ToLower. -/
def goToLower (s : GoStr) : GoStr := s.map lowerChar

/-- Models strings.ToUpper. -/
def goToUpper (s : GoStr) : GoStr := s.map upperChar

/-- Models strings.TrimSpace: drop leading and trailing white space. -/
def trimSpace (s : GoStr) : GoStr :=
  ((s.dropWhile isSpaceChar).reverse.dropWhile isSpaceChar).reverse

/-- Models strings.HasPrefix s pre. -/
def startsWith (s pre : GoStr) : Bool := pre.isPrefixOf s

/-- The normalization applied to each entry by cors.normalizeStrs:
strings.TrimSpace followed by strings.ToLower. -/
def normStr (s : GoStr) : GoStr := goToLower (trimSpace s)

/-- The loop of cors.normalizeStrs (cors.go lines 126-135): each entry
is trimmed and lowercased, and appended to the output unless it was
already seen.  The Go set (a map used for membership only) is embedded
as the list of seen entries. -/
def normalizeLoop (seen : List GoStr) : List GoStr → List GoStr
  | [] => []
  | s :: rest =>
    let t := normStr s
    if t ∈ seen then normalizeLoop seen rest
    else t :: normalizeLoop (t :: seen) rest

/-- Models cors.normalizeStrs (cors.go lines 122-137).  The Go
function returns nil both for a nil argument and for an argument whose
loop appends nothing; both cases are the empty list here. -/
def normalizeStrs (strs : List GoStr) : List GoStr := normalizeLoop [] strs

/-- Models cors.convert (cors.go lines 186-192): map a string
transformer over a list. -/
def convert (strs : List GoStr) (f : GoStr → GoStr) : List GoStr := strs.map f

/-- Models strings.Join with separator comma. -/
def joinComma (l : List GoStr) : GoStr := List.intercalate (gs ",") l

/-- Models the token-character test of net/textproto
(validHeaderFieldByte): ASCII letters, digits, and the characters
listed in RFC 7230 for tokens. -/
def isTokenChar (n : Nat) : Bool :=
  (48 ≤ n && n ≤ 57) || (97 ≤ n && n ≤ 122) || (65 ≤ n && n ≤ 90) ||
  ([33, 35, 36, 37, 38, 39, 42, 43, 45, 46, 94, 95, 96, 124, 126] : List Nat).contains n

/-- The canonicalization loop of textproto.CanonicalMIMEHeaderKey: the
first character and every character following a hyphen is uppercased,
every other character is lowercased. -/
def canonicalLoop : Bool → GoStr → GoStr
  | _, [] => []
  | upper, c :: rest =>
    let d := if upper then upperChar c else lowerChar c
    d :: canonicalLoop (d == 45) rest

/-- Models http.CanonicalHeaderKey (textproto.CanonicalMIMEHeaderKey):
a key containing a non-token character is returned unchanged,
otherwise it is canonicalized segment by segment. -/
def canonicalHeaderKey (s : GoStr) : GoStr :=
  if s.all isTokenChar then canonicalLoop true s else s

/- ## The header multimap (http.Header) -/

/-- Models http.Header, the Go map from canonical header keys to
slices of values: a function from keys to value lists, where the empty
list stands for an absent key (a Go map lookup at a missing key yields
a nil slice, and Set and Add never store an empty slice). -/
abbrev Header : Type := GoStr → List GoStr

/-- The empty header map. -/
def emptyHeader : Header := fun _ => []

/-- Models http.Header.Set: replace the values of the canonicalized
key by the single given value. -/
def hSet (h : Header) (k v : GoStr) : Header :=
  fun key => if key = canonicalHeaderKey k then [v] else h key

/-- Models http.Header.Add: append the given value to the values of
the canonicalized key. -/
def hAdd (h : Header) (k v : GoStr) : Header :=
  fun key => if key = canonicalHeaderKey k then h key ++ [v] else h key

/- ## The cors policy record -/

/-- Models the cors struct of cors.go.  MaxAge is a Go time.Duration,
an integer count of nanoseconds.  The precomputed normalHeaders and
preflightHeaders fields are not stored: they are the values of the
pure functions generateNormalHeaders and generatePreflightHeaders on
the validated record, and are recomputed where the Go code reads
them. -/
structure Cors where
  AllowOrigins : List GoStr
  AllowOriginFunc : Option (GoStr → Bool)
  AllowMethods : List GoStr
  AllowHeaders : List GoStr
  AllowCredentials : Bool
  ExposeHeaders : List GoStr
  MaxAge : Int
  allowAllOrigins : Bool := false

/-- Models cors.generateNormalHeaders (cors.go lines 139-154). -/
def generateNormalHeaders (c : Cors) : Header :=
  let headers := emptyHeader
  let headers := if c.AllowCredentials then
      hSet headers (gs "Access-Control-Allow-Credentials") (gs "true")
    else headers
  let headers := if c.ExposeHeaders.length > 0 then
      hSet headers (gs "Access-Control-Expose-Headers")
        (joinComma (convert (normalizeStrs c.ExposeHeaders) canonicalHeaderKey))
    else headers
  if c.allowAllOrigins then
    hSet headers (gs "Access-Control-Allow-Origin") (gs "*")
  else
    hSet headers (gs "Vary") (gs "Origin")

/-- Models cors.generatePreflightHeaders (cors.go lines 156-184).  The
Max-Age value divides the nanosecond count by time.Second; the
division is guarded by MaxAge being positive, where every integer
division convention agrees with the Go one. -/
def generatePreflightHeaders (c : Cors) : Header :=
  let headers := emptyHeader
  let headers := if c.AllowCredentials then
      hSet headers (gs "Access-Control-Allow-Credentials") (gs "true")
    else headers
  let headers := if c.AllowMethods.length > 0 then
      hSet headers (gs "Access-Control-Allow-Methods")
        (joinComma (convert (normalizeStrs c.AllowMethods) goToUpper))
    else headers
  let headers := if c.AllowHeaders.length > 0 then
      hSet headers (gs "Access-Control-Allow-Headers")
        (joinComma (convert (normalizeStrs c.AllowHeaders) canonicalHeaderKey))
    else headers
  let headers := if c.MaxAge > 0 then
      hSet headers (gs "Access-Control-Max-Age")
        (gs (toString (c.MaxAge.toNat / 1000000000)))
    else headers
  if c.allowAllOrigins then
    hSet headers (gs "Access-Control-Allow-Origin") (gs "*")
  else
    hAdd (hAdd (hAdd headers (gs "Vary") (gs "Origin"))
      (gs "Vary") (gs "Access-Control-Request-Method"))
      (gs "Vary") (gs "Access-Control-Request-Headers")

/- ## Construction-time validation -/

/-- The per-entry loop of the origin-list validation (cors.go lines
66-72): a literal star among several origins is rejected, and every
origin must carry an http or https scheme prefix. -/
def checkOriginEntries : List GoStr → Except GoStr Unit
  | [] => .ok ()
  | origin :: rest =>
    if origin = gs "*" then
      .error (gs "All origins for cors are allowed, no individual origins needed")
    else if ¬ (startsWith origin (gs "http://") = true) ∧
        ¬ (startsWith origin (gs "https://") = true) then
      .error (gs "Origin must have prefix http or https")
    else checkOriginEntries rest

/-- Models the validation prefix of CorsMiddleware (cors.go lines
59-75): normalize the origin list, then apply rules A, B, C in order.
A Go panic is embedded as an error result.  On success the returned
record carries the normalized origin list and the derived
allowAllOrigins flag. -/
def validateAllowOrigins (c : Cors) : Except GoStr Cors :=
  let origins := normalizeStrs c.AllowOrigins
  if origins.length = 1 ∧ origins.getD 0 [] = gs "*" then
    if c.AllowOriginFunc.isSome then
      .error (gs "All origins are allowed, no predicate function needed")
    else
      .ok { c with AllowOrigins := origins, allowAllOrigins := true }
  else if origins.length > 0 then
    match checkOriginEntries origins with
    | .error e => .error e
    | .ok _ => .ok { c with AllowOrigins := origins, allowAllOrigins := false }
  else if c.AllowOriginFunc.isNone then
    .error (gs "No origin is allowed")
  else
    .ok { c with AllowOrigins := origins, allowAllOrigins := false }

/- ## Per-request evaluation -/

/-- Models cors.validateOrigin (cors.go lines 107-120): allow-all
passes, then an exact case-sensitive membership test in the normalized
origin list, then the optional predicate on the raw origin, else
denied. -/
def validateOrigin (c : Cors) (origin : GoStr) : Bool :=
  if c.allowAllOrigins then true
  else if c.AllowOrigins.any (fun value => value == origin) then true
  else
    match c.AllowOriginFunc with
    | some f => f origin
    | none => false

/-- An incoming request, as the middleware sees it: the value of the
Origin header (the empty string when the header is absent, which is
what Go Header.Get returns) and the method. -/
structure Request where
  origin : GoStr
  method : GoStr

/-- The response state the middleware manipulates: the header map, the
status code written so far, and the body written so far. -/
structure Response where
  headers : Header
  status : Option Nat
  body : Option GoStr

/-- The response state before the middleware runs. -/
def emptyResponse : Response := ⟨emptyHeader, none, none⟩

/-- Models the loop writing a precomputed header map into the response
headers (the range over the map with ctx.Header inside the middleware
body): every key present in the source map has its values written over
the response, and absent keys leave the response untouched. -/
def writeHeaders (resp src : Header) : Header :=
  fun key => if src key ≠ [] then src key else resp key

/-- The response headers an allowed request receives (cors.go lines
90-103): the precomputed preflight or normal header map is written
first, then, when neither the allow-all flag nor AllowCredentials is
set, the Access-Control-Allow-Origin header is set to the request
origin (the per-request echo). -/
def corsAllowedHeaders (c : Cors) (origin : GoStr) (preflight : Bool) : Header :=
  let hdrs := writeHeaders emptyHeader
    (if preflight then generatePreflightHeaders c else generateNormalHeaders c)
  if !c.allowAllOrigins && !c.AllowCredentials then
    hSet hdrs (gs "Access-Control-Allow-Origin") origin
  else hdrs

/-- Models one run of the handler returned by CorsMiddleware (cors.go
lines 80-104) on a fresh response: the resulting response state,
paired with true when the framework continues to the downstream
handlers (no abort) and false when the pipeline terminates (mel stops
running handlers once AbortWithStatus has been called; the deferred
AbortWithStatus in the OPTIONS branch fires when the middleware body
returns, before any downstream handler would run). -/
def corsStep (c : Cors) (req : Request) : Response × Bool :=
  if req.origin = [] then
    (emptyResponse, true)
  else if ¬ (validateOrigin c req.origin = true) then
    ({ headers := emptyHeader, status := some 403, body := none }, false)
  else if req.method = gs "OPTIONS" then
    ({ headers := corsAllowedHeaders c req.origin true,
       status := some 200, body := none }, false)
  else
    ({ headers := corsAllowedHeaders c req.origin false,
       status := none, body := none }, true)

/-- The middleware composed with the rest of the pipeline: the
downstream handlers run on the response the middleware produced
exactly when the middleware did not abort. -/
def corsApply (c : Cors) (req : Request) (downstream : Response → Response) :
    Response :=
  let r := corsStep c req
  if r.2 then downstream r.1 else r.1

/- ## Sanity checks on the string primitives -/

example : gs "Ab-c" = [65, 98, 45, 99] := by decide
example : normStr (gs " poSt  ") = gs "post" := by decide
example : canonicalHeaderKey (gs "x-user") = gs "X-User" := by decide
example : canonicalHeaderKey (gs "xPassword") = gs "Xpassword" := by decide
example : startsWith (gs "http://a.com") (gs "http://") = true := by decide
example : startsWith (gs "ftp://a.com") (gs "http://") = false := by decide
example : normalizeStrs [gs "http-Access ", gs "Post", gs "POST", gs " poSt  ",
    gs "HTTP-Access", gs ""] = [gs "http-access", gs "post", gs ""] := by decide

/- ## Idempotence of the per-entry normalization -/

theorem lowerChar_lowerChar (n : Nat) : lowerChar (lowerChar n) = lowerChar n := by
  unfold lowerChar
  split_ifs <;> omega

theorem isSpaceChar_lowerChar (n : Nat) : isSpaceChar (lowerChar n) = isSpaceChar n := by
  rw [Bool.eq_iff_iff]
  unfold lowerChar isSpaceChar
  split_ifs
  all_goals simp only [Bool.or_eq_true, beq_iff_eq]
  omega

theorem goToLower_goToLower (s : GoStr) : goToLower (goToLower s) = goToLower s := by
  unfold goToLower
  rw [List.map_map]
  exact List.map_congr_left fun n _ => lowerChar_lowerChar n

theorem dropWhile_dropWhile {α : Type} (p : α → Bool) (l : List α) :
    (l.dropWhile p).dropWhile p = l.dropWhile p := by
  induction l with
  | nil => rfl
  | cons a l ih =>
    by_cases h : p a
    · simp [List.dropWhile_cons, h, ih]
    · simp [List.dropWhile_cons, h]

theorem dropWhile_eq_self_of_append {α : Type} (p : α → Bool) (m t : List α)
    (h : (m ++ t).dropWhile p = m ++ t) : m.dropWhile p = m := by
  cases m with
  | nil => rfl
  | cons a m =>
    by_cases ha : p a
    · exfalso
      rw [List.cons_append, List.dropWhile_cons, if_pos ha] at h
      have hle : ((m ++ t).dropWhile p).length ≤ (m ++ t).length :=
        (List.dropWhile_suffix p).sublist.length_le
      rw [h] at hle
      simp at hle
    · simp [List.dropWhile_cons, ha]

theorem trimSpace_dropWhile (s : GoStr) :
    (trimSpace s).dropWhile isSpaceChar = trimSpace s := by
  unfold trimSpace
  set u := s.dropWhile isSpaceChar with hu
  obtain ⟨w, hw⟩ : u.reverse.dropWhile isSpaceChar <:+ u.reverse :=
    List.dropWhile_suffix isSpaceChar
  have hu2 : u = (u.reverse.dropWhile isSpaceChar).reverse ++ w.reverse := by
    have := congrArg List.reverse hw
    simpa using this.symm
  exact dropWhile_eq_self_of_append isSpaceChar _ w.reverse
    (by rw [← hu2, hu]; exact dropWhile_dropWhile isSpaceChar s)

theorem trimSpace_reverse (s : GoStr) :
    (trimSpace s).reverse = (s.dropWhile isSpaceChar).reverse.dropWhile isSpaceChar := by
  unfold trimSpace
  rw [List.reverse_reverse]

theorem trimSpace_trimSpace (s : GoStr) : trimSpace (trimSpace s) = trimSpace s := by
  show (((trimSpace s).dropWhile isSpaceChar).reverse.dropWhile isSpaceChar).reverse
    = trimSpace s
  rw [trimSpace_dropWhile, trimSpace_reverse, dropWhile_dropWhile]
  rfl

theorem trimSpace_goToLower (s : GoStr) :
    trimSpace (goToLower s) = goToLower (trimSpace s) := by
  have hp : isSpaceChar ∘ lowerChar = isSpaceChar := funext isSpaceChar_lowerChar
  unfold trimSpace goToLower
  rw [List.dropWhile_map, hp, ← List.map_reverse, List.dropWhile_map, hp,
    ← List.map_reverse]

theorem normStr_normStr (s : GoStr) : normStr (normStr s) = normStr s := by
  unfold normStr
  rw [trimSpace_goToLower, trimSpace_trimSpace, goToLower_goToLower]

/- ## Idempotence of normalizeStrs -/

theorem normalizeLoop_mem_norm (l : List GoStr) :
    ∀ seen t, t ∈ normalizeLoop seen l → normStr t = t ∧ t ∉ seen := by
  induction l with
  | nil => intro seen t h; simp [normalizeLoop] at h
  | cons s rest ih =>
    intro seen t h
    unfold normalizeLoop at h
    by_cases hs : normStr s ∈ seen
    · rw [if_pos hs] at h
      exact ih seen t h
    · rw [if_neg hs] at h
      rcases List.mem_cons.mp h with h | h
      · subst h
        exact ⟨normStr_normStr s, hs⟩
      · obtain ⟨h1, h2⟩ := ih _ t h
        exact ⟨h1, fun hmem => h2 (List.mem_cons_of_mem _ hmem)⟩

theorem normalizeLoop_nodup (l : List GoStr) :
    ∀ seen, (normalizeLoop seen l).Nodup := by
  induction l with
  | nil => intro seen; simp [normalizeLoop]
  | cons s rest ih =>
    intro seen
    unfold normalizeLoop
    by_cases hs : normStr s ∈ seen
    · rw [if_pos hs]; exact ih seen
    · rw [if_neg hs]
      refine List.nodup_cons.mpr ⟨fun hmem => ?_, ih _⟩
      have := (normalizeLoop_mem_norm rest _ _ hmem).2
      exact this (List.mem_cons_self _ _)

theorem normalizeLoop_eq_self (l : List GoStr) :
    ∀ seen, (∀ s ∈ l, normStr s = s) → l.Nodup → (∀ s ∈ l, s ∉ seen) →
    normalizeLoop seen l = l := by
  induction l with
  | nil => intro seen _ _ _; rfl
  | cons s rest ih =>
    intro seen hnorm hnodup hout
    unfold normalizeLoop
    have hs : normStr s = s := hnorm s (List.mem_cons_self _ _)
    rw [hs, if_neg (hout s (List.mem_cons_self _ _))]
    congr 1
    refine ih _ (fun x hx => hnorm x (List.mem_cons_of_mem _ hx))
      (List.nodup_cons.mp hnodup).2 (fun x hx => ?_)
    intro hmem
    rcases List.mem_cons.mp hmem with h | h
    · exact (List.nodup_cons.mp hnodup).1 (h ▸ hx)
    · exact hout x (List.mem_cons_of_mem _ hx) h

/-- Claim C9 — normalizeStrs (trim, lowercase, deduplicate keeping the
first occurrence) is idempotent: applying it to its own output returns
that output unchanged, for every input list. -/
theorem normalizeStrs_idempotent (l : List GoStr) :
    normalizeStrs (normalizeStrs l) = normalizeStrs l := by
  unfold normalizeStrs
  exact normalizeLoop_eq_self _ []
    (fun s hs => (normalizeLoop_mem_norm l [] s hs).1)
    (normalizeLoop_nodup l [])
    (fun s _ hmem => (List.not_mem_nil s) hmem)

/-- Claim C10 — normalizeStrs returns the empty result for an empty
(or, in Go, nil) input, and a whitespace-only entry is kept as the
empty string after trimming, deduplicated against other empty entries:
the list from TestCorsNormalize maps to the expected output. -/
theorem normalizeStrs_nil_and_example :
    normalizeStrs [] = [] ∧
    normalizeStrs [gs "http-Access ", gs "Post", gs "POST", gs " poSt  ",
      gs "HTTP-Access", gs ""] = [gs "http-access", gs "post", gs ""] := by
  constructor
  · rfl
  · decide

/- ## Pointwise evaluation of the header operations -/

theorem hSet_key_ne (h : Header) (k v key : GoStr)
    (hne : ¬ key = canonicalHeaderKey k) : hSet h k v key = h key := if_neg hne

theorem hSet_key_eq (h : Header) (k v key : GoStr)
    (heq : key = canonicalHeaderKey k) : hSet h k v key = [v] := if_pos heq

theorem hAdd_key_ne (h : Header) (k v key : GoStr)
    (hne : ¬ key = canonicalHeaderKey k) : hAdd h k v key = h key := if_neg hne

theorem hAdd_key_eq (h : Header) (k v key : GoStr)
    (heq : key = canonicalHeaderKey k) : hAdd h k v key = h key ++ [v] := if_pos heq

/- ## The generated header sets at the Vary and Allow-Origin keys -/

theorem normalHeaders_vary_of_not_all (c : Cors) (hc : c.allowAllOrigins = false) :
    generateNormalHeaders c (gs "Vary") = [gs "Origin"] := by
  simp only [generateNormalHeaders, hc, Bool.false_eq_true, if_false]
  rw [hSet_key_eq _ _ _ _ (by decide)]

theorem normalHeaders_acao_of_not_all (c : Cors) (hc : c.allowAllOrigins = false) :
    generateNormalHeaders c (gs "Access-Control-Allow-Origin") = [] := by
  simp only [generateNormalHeaders, hc, Bool.false_eq_true, if_false]
  rw [hSet_key_ne _ _ _ _ (by decide)]
  simp +decide [ite_apply, hSet, emptyHeader]

theorem normalHeaders_acao_of_all (c : Cors) (hc : c.allowAllOrigins = true) :
    generateNormalHeaders c (gs "Access-Control-Allow-Origin") = [gs "*"] := by
  simp only [generateNormalHeaders, hc, if_true]
  rw [hSet_key_eq _ _ _ _ (by decide)]

theorem normalHeaders_vary_of_all (c : Cors) (hc : c.allowAllOrigins = true) :
    generateNormalHeaders c (gs "Vary") = [] := by
  simp only [generateNormalHeaders, hc, if_true]
  rw [hSet_key_ne _ _ _ _ (by decide)]
  simp +decide [ite_apply, hSet, emptyHeader]

theorem preflightHeaders_vary_of_not_all (c : Cors) (hc : c.allowAllOrigins = false) :
    generatePreflightHeaders c (gs "Vary") =
      [gs "Origin", gs "Access-Control-Request-Method",
       gs "Access-Control-Request-Headers"] := by
  simp only [generatePreflightHeaders, hc, Bool.false_eq_true, if_false]
  rw [hAdd_key_eq _ _ _ _ (by decide), hAdd_key_eq _ _ _ _ (by decide),
    hAdd_key_eq _ _ _ _ (by decide)]
  simp +decide [ite_apply, hSet, emptyHeader]

theorem preflightHeaders_acao_of_not_all (c : Cors) (hc : c.allowAllOrigins = false) :
    generatePreflightHeaders c (gs "Access-Control-Allow-Origin") = [] := by
  simp only [generatePreflightHeaders, hc, Bool.false_eq_true, if_false]
  rw [hAdd_key_ne _ _ _ _ (by decide), hAdd_key_ne _ _ _ _ (by decide),
    hAdd_key_ne _ _ _ _ (by decide)]
  simp +decide [ite_apply, hSet, emptyHeader]

theorem preflightHeaders_acao_of_all (c : Cors) (hc : c.allowAllOrigins = true) :
    generatePreflightHeaders c (gs "Access-Control-Allow-Origin") = [gs "*"] := by
  simp only [generatePreflightHeaders, hc, if_true]
  rw [hSet_key_eq _ _ _ _ (by decide)]

theorem preflightHeaders_vary_of_all (c : Cors) (hc : c.allowAllOrigins = true) :
    generatePreflightHeaders c (gs "Vary") = [] := by
  simp only [generatePreflightHeaders, hc, if_true]
  rw [hSet_key_ne _ _ _ _ (by decide)]
  simp +decide [ite_apply, hSet, emptyHeader]

/- ## Concrete policies used as witnesses -/

/-- A validated allow-all policy. -/
def corsAllowAll : Cors :=
  { AllowOrigins := [gs "*"], AllowOriginFunc := none, AllowMethods := [],
    AllowHeaders := [], AllowCredentials := false, ExposeHeaders := [],
    MaxAge := 0, allowAllOrigins := true }

/-- A validated specific-origin policy. -/
def corsSpecific : Cors :=
  { AllowOrigins := [gs "http://a.com"], AllowOriginFunc := none, AllowMethods := [],
    AllowHeaders := [], AllowCredentials := false, ExposeHeaders := [],
    MaxAge := 0, allowAllOrigins := false }

/-- Claim C7 — generateNormalHeaders yields, for every policy: with
allowAllOrigins true, an Access-Control-Allow-Origin header with value
star and no Vary header; with allowAllOrigins false, a Vary header
with value Origin and no Access-Control-Allow-Origin header. -/
theorem generateNormalHeaders_spec (c : Cors) :
    (c.allowAllOrigins = true →
      generateNormalHeaders c (gs "Access-Control-Allow-Origin") = [gs "*"] ∧
      generateNormalHeaders c (gs "Vary") = []) ∧
    (c.allowAllOrigins = false →
      generateNormalHeaders c (gs "Vary") = [gs "Origin"] ∧
      generateNormalHeaders c (gs "Access-Control-Allow-Origin") = []) :=
  ⟨fun h => ⟨normalHeaders_acao_of_all c h, normalHeaders_vary_of_all c h⟩,
   fun h => ⟨normalHeaders_vary_of_not_all c h, normalHeaders_acao_of_not_all c h⟩⟩

/-- Witness for claim C7 at the two concrete policies. -/
theorem generateNormalHeaders_spec_witness :
    (generateNormalHeaders corsAllowAll (gs "Access-Control-Allow-Origin") = [gs "*"] ∧
      generateNormalHeaders corsAllowAll (gs "Vary") = []) ∧
    (generateNormalHeaders corsSpecific (gs "Vary") = [gs "Origin"] ∧
      generateNormalHeaders corsSpecific (gs "Access-Control-Allow-Origin") = []) :=
  ⟨(generateNormalHeaders_spec corsAllowAll).1 rfl,
   (generateNormalHeaders_spec corsSpecific).2 rfl⟩

/-- Claim C8 — generatePreflightHeaders yields, for every policy with
allowAllOrigins false, a Vary key carrying exactly the three values
Origin, Access-Control-Request-Method, Access-Control-Request-Headers
in this order, as three distinct occurrences rather than one
comma-joined value; with allowAllOrigins true it instead yields
Access-Control-Allow-Origin star and no Vary entry. -/
theorem generatePreflightHeaders_spec (c : Cors) :
    (c.allowAllOrigins = false →
      generatePreflightHeaders c (gs "Vary") =
        [gs "Origin", gs "Access-Control-Request-Method",
         gs "Access-Control-Request-Headers"]) ∧
    (c.allowAllOrigins = true →
      generatePreflightHeaders c (gs "Access-Control-Allow-Origin") = [gs "*"] ∧
      generatePreflightHeaders c (gs "Vary") = []) :=
  ⟨fun h => preflightHeaders_vary_of_not_all c h,
   fun h => ⟨preflightHeaders_acao_of_all c h, preflightHeaders_vary_of_all c h⟩⟩

/-- Witness for claim C8 at the two concrete policies. -/
theorem generatePreflightHeaders_spec_witness :
    generatePreflightHeaders corsSpecific (gs "Vary") =
      [gs "Origin", gs "Access-Control-Request-Method",
       gs "Access-Control-Request-Headers"] ∧
    (generatePreflightHeaders corsAllowAll (gs "Access-Control-Allow-Origin") = [gs "*"] ∧
      generatePreflightHeaders corsAllowAll (gs "Vary") = []) :=
  ⟨(generatePreflightHeaders_spec corsSpecific).1 rfl,
   (generatePreflightHeaders_spec corsAllowAll).2 rfl⟩

/- ## Origin validation (claim C1) -/

/-- Claim C1 — for every validated policy and non-empty origin,
validateOrigin allows the origin exactly when the allow-all flag is
set, or the origin is an exact case-sensitive member of the normalized
origin list, or a configured predicate returns true on the raw origin
string. -/
theorem validateOrigin_spec (c0 c : Cors) (origin : GoStr)
    (_hval : validateAllowOrigins c0 = .ok c) (_hne : origin ≠ []) :
    validateOrigin c origin = true ↔
      c.allowAllOrigins = true ∨ origin ∈ c.AllowOrigins ∨
        ∃ f, c.AllowOriginFunc = some f ∧ f origin = true := by
  unfold validateOrigin
  by_cases hall : c.allowAllOrigins = true
  · simp [hall]
  · rw [if_neg hall]
    by_cases hmem : c.AllowOrigins.any (fun value => value == origin) = true
    · rw [if_pos hmem]
      simp only [List.any_eq_true, beq_iff_eq] at hmem
      obtain ⟨x, hx, rfl⟩ := hmem
      simp [hx]
    · rw [if_neg hmem]
      have hmem' : origin ∉ c.AllowOrigins := fun hm =>
        hmem (List.any_eq_true.mpr ⟨origin, hm, beq_self_eq_true origin⟩)
      cases hf : c.AllowOriginFunc with
      | none => simp [hall, hmem', hf]
      | some f => simp [hall, hmem', hf]

/-- Witness for claim C1: the validated specific-origin policy allows
its listed origin. -/
theorem validateOrigin_spec_witness :
    validateAllowOrigins corsSpecific = .ok corsSpecific ∧
    gs "http://a.com" ≠ [] ∧
    (validateOrigin corsSpecific (gs "http://a.com") = true ↔
      corsSpecific.allowAllOrigins = true ∨
        gs "http://a.com" ∈ corsSpecific.AllowOrigins ∨
        ∃ f, corsSpecific.AllowOriginFunc = some f ∧ f (gs "http://a.com") = true) :=
  ⟨rfl, by decide,
   validateOrigin_spec corsSpecific corsSpecific (gs "http://a.com") rfl (by decide)⟩

/- ## Construction-time validation (claim C4) -/

theorem singleton_star_iff (l : List GoStr) :
    (l.length = 1 ∧ l.getD 0 [] = gs "*") ↔ l = [gs "*"] := by
  cases l with
  | nil => simp
  | cons a t =>
    cases t with
    | nil => simp [List.getD]
    | cons b u => simp

theorem checkOriginEntries_error_iff (l : List GoStr) :
    (∃ e, checkOriginEntries l = .error e) ↔
      ∃ o ∈ l, o = gs "*" ∨
        (startsWith o (gs "http://") = false ∧ startsWith o (gs "https://") = false) := by
  induction l with
  | nil => simp [checkOriginEntries]
  | cons a l ih =>
    unfold checkOriginEntries
    by_cases h1 : a = gs "*"
    · rw [if_pos h1]
      simp [h1]
    · rw [if_neg h1]
      by_cases h2 : ¬ (startsWith a (gs "http://") = true) ∧
          ¬ (startsWith a (gs "https://") = true)
      · rw [if_pos h2]
        simp only [Bool.not_eq_true] at h2
        simp [h2]
      · rw [if_neg h2]
        rw [ih]
        simp only [Bool.not_eq_true] at h2
        constructor
        · rintro ⟨o, ho, hbad⟩
          exact ⟨o, List.mem_cons_of_mem _ ho, hbad⟩
        · rintro ⟨o, ho, hbad⟩
          rcases List.mem_cons.mp ho with rfl | ho
          · rcases hbad with rfl | ⟨hp1, hp2⟩
            · exact absurd rfl h1
            · exact absurd ⟨hp1, hp2⟩ h2
          · exact ⟨o, ho, hbad⟩

/-- Claim C4 — validation fails exactly when the normalized origin
list is the singleton star together with a predicate, or is non-empty,
not the singleton star, and holds a star entry or an entry without an
http or https scheme prefix, or is empty with no predicate; otherwise
validation succeeds and the allow-all flag of the resulting policy is
set exactly when the normalized list is the singleton star. -/
theorem validateAllowOrigins_spec (c : Cors) :
    ((∃ e, validateAllowOrigins c = .error e) ↔
      (normalizeStrs c.AllowOrigins = [gs "*"] ∧ c.AllowOriginFunc.isSome = true) ∨
      (normalizeStrs c.AllowOrigins ≠ [] ∧ normalizeStrs c.AllowOrigins ≠ [gs "*"] ∧
        ∃ o ∈ normalizeStrs c.AllowOrigins, o = gs "*" ∨
          (startsWith o (gs "http://") = false ∧
           startsWith o (gs "https://") = false)) ∨
      (normalizeStrs c.AllowOrigins = [] ∧ c.AllowOriginFunc.isNone = true)) ∧
    (∀ c', validateAllowOrigins c = .ok c' →
      (c'.allowAllOrigins = true ↔ normalizeStrs c.AllowOrigins = [gs "*"])) := by
  unfold validateAllowOrigins
  by_cases h1 : normalizeStrs c.AllowOrigins = [gs "*"]
  · rw [if_pos ((singleton_star_iff _).mpr h1)]
    by_cases hf : c.AllowOriginFunc.isSome = true
    · rw [if_pos hf]
      constructor
      · simp [h1, hf]
      · intro c' hc'
        simp at hc'
    · rw [if_neg hf]
      constructor
      · constructor
        · intro h
          simp at h
        · rintro (⟨_, hs⟩ | ⟨_, hne, _⟩ | ⟨hnil, _⟩)
          · exact absurd hs hf
          · exact absurd h1 hne
          · rw [h1] at hnil
            exact absurd hnil (by decide)
      · intro c' hc'
        rw [Except.ok.injEq] at hc'
        subst hc'
        simp [h1]
  · rw [if_neg (fun hx => h1 ((singleton_star_iff _).mp hx))]
    by_cases h2 : (normalizeStrs c.AllowOrigins).length > 0
    · rw [if_pos h2]
      have hnonnil : normalizeStrs c.AllowOrigins ≠ [] :=
        List.ne_nil_of_length_pos h2
      cases hce : checkOriginEntries (normalizeStrs c.AllowOrigins) with
      | error e =>
        constructor
        · constructor
          · intro _
            exact Or.inr (Or.inl ⟨hnonnil, h1,
              (checkOriginEntries_error_iff _).mp ⟨e, hce⟩⟩)
          · intro _
            exact ⟨e, rfl⟩
        · intro c' hc'
          simp at hc'
      | ok u =>
        cases u
        constructor
        · constructor
          · intro h
            simp at h
          · rintro (⟨hs, _⟩ | ⟨_, _, hbad⟩ | ⟨hnil, _⟩)
            · exact absurd hs h1
            · obtain ⟨e, he⟩ := (checkOriginEntries_error_iff _).mpr hbad
              rw [he] at hce
              exact absurd hce (by simp)
            · exact absurd hnil hnonnil
        · intro c' hc'
          rw [Except.ok.injEq] at hc'
          subst hc'
          simp [h1]
    · rw [if_neg h2]
      have hnil : normalizeStrs c.AllowOrigins = [] := by
        rcases List.eq_nil_or_concat (normalizeStrs c.AllowOrigins) with h | ⟨l, a, h⟩
        · exact h
        · exfalso
          apply h2
          rw [h]
          simp
      by_cases hf : c.AllowOriginFunc.isNone = true
      · rw [if_pos hf]
        constructor
        · simp [hnil, hf]
        · intro c' hc'
          simp at hc'
      · rw [if_neg hf]
        constructor
        · constructor
          · intro h
            simp at h
          · rintro (⟨hs, _⟩ | ⟨hne, _, _⟩ | ⟨_, hn⟩)
            · exact absurd hs h1
            · exact absurd hnil hne
            · exact absurd hn hf
        · intro c' hc'
          rw [Except.ok.injEq] at hc'
          subst hc'
          simp [h1]

/-- Witness for claim C4: a mixed star and specific-origin list is
rejected, and a validated specific-origin policy leaves the allow-all
flag cleared. -/
theorem validateAllowOrigins_spec_witness :
    (∃ e, validateAllowOrigins
      { corsSpecific with AllowOrigins := [gs "*", gs "http://a.com"] } = .error e) ∧
    (corsSpecific.allowAllOrigins = true ↔
      normalizeStrs corsSpecific.AllowOrigins = [gs "*"]) :=
  ⟨(validateAllowOrigins_spec _).1.mpr
      (Or.inr (Or.inl (by refine ⟨by decide, by decide, gs "*", ?_, Or.inl rfl⟩; decide))),
   (validateAllowOrigins_spec corsSpecific).2 corsSpecific rfl⟩

/- ## Per-request evaluation (claims C2, C3, C5, C6) -/

theorem writeHeaders_empty (src : Header) (key : GoStr) :
    writeHeaders emptyHeader src key = src key := by
  unfold writeHeaders emptyHeader
  by_cases h : src key = []
  · simp [h]
  · simp [h]

theorem corsAllowedHeaders_acao_echo (c : Cors) (origin : GoStr) (preflight : Bool)
    (hall : c.allowAllOrigins = false) (hcred : c.AllowCredentials = false) :
    corsAllowedHeaders c origin preflight (gs "Access-Control-Allow-Origin") =
      [origin] := by
  unfold corsAllowedHeaders
  rw [if_pos (by simp [hall, hcred])]
  exact hSet_key_eq _ _ _ _ (by decide)

theorem corsAllowedHeaders_acao_credentials (c : Cors) (origin : GoStr)
    (preflight : Bool) (hall : c.allowAllOrigins = false)
    (hcred : c.AllowCredentials = true) :
    corsAllowedHeaders c origin preflight (gs "Access-Control-Allow-Origin") = [] := by
  unfold corsAllowedHeaders
  rw [if_neg (by simp [hcred])]
  rw [writeHeaders_empty]
  cases preflight with
  | false => simpa using normalHeaders_acao_of_not_all c hall
  | true => simpa using preflightHeaders_acao_of_not_all c hall

theorem corsAllowedHeaders_preserves (c : Cors) (origin : GoStr) (preflight : Bool)
    (k : GoStr)
    (hk : (if preflight then generatePreflightHeaders c
           else generateNormalHeaders c) k ≠ []) :
    corsAllowedHeaders c origin preflight k =
      (if preflight then generatePreflightHeaders c else generateNormalHeaders c) k := by
  have hcanon : canonicalHeaderKey (gs "Access-Control-Allow-Origin") =
      gs "Access-Control-Allow-Origin" := by decide
  unfold corsAllowedHeaders
  by_cases hecho : (!c.allowAllOrigins && !c.AllowCredentials) = true
  · rw [if_pos hecho]
    have hall : c.allowAllOrigins = false := by
      have h2 := hecho
      simp only [Bool.and_eq_true, Bool.not_eq_true'] at h2
      exact h2.1
    by_cases hkey : k = gs "Access-Control-Allow-Origin"
    · exfalso
      apply hk
      subst hkey
      cases preflight with
      | false => simpa using normalHeaders_acao_of_not_all c hall
      | true => simpa using preflightHeaders_acao_of_not_all c hall
    · rw [hSet_key_ne _ _ _ _ (by rw [hcanon]; exact hkey), writeHeaders_empty]
  · rw [if_neg hecho, writeHeaders_empty]

/-- Claim C2 — for an allowed request whose policy has both the
allow-all flag and AllowCredentials cleared, the middleware sets the
Access-Control-Allow-Origin response header to the exact request
origin, in the preflight branch and in the normal branch alike. -/
theorem cors_echo_spec (c : Cors) (req : Request)
    (hne : req.origin ≠ []) (hv : validateOrigin c req.origin = true)
    (hall : c.allowAllOrigins = false) (hcred : c.AllowCredentials = false) :
    (corsStep c req).1.headers (gs "Access-Control-Allow-Origin") = [req.origin] := by
  unfold corsStep
  rw [if_neg hne, if_neg (fun h => h hv)]
  by_cases hm : req.method = gs "OPTIONS"
  · rw [if_pos hm]
    exact corsAllowedHeaders_acao_echo c req.origin true hall hcred
  · rw [if_neg hm]
    exact corsAllowedHeaders_acao_echo c req.origin false hall hcred

/-- Witness for claim C2: the specific-origin policy echoes the
allowed origin of a GET request. -/
theorem cors_echo_spec_witness :
    (corsStep corsSpecific ⟨gs "http://a.com", gs "GET"⟩).1.headers
      (gs "Access-Control-Allow-Origin") = [gs "http://a.com"] :=
  cors_echo_spec corsSpecific ⟨gs "http://a.com", gs "GET"⟩
    (by decide) (by decide) rfl rfl

/-- The policy of the claim C3 counterexample: the validated
specific-origin policy with AllowCredentials switched on. -/
def corsCred : Cors := { corsSpecific with AllowCredentials := true }

/-- Counterexample to claim C3 as stated: with AllowCredentials true
and the allow-all flag false, the allowed request with origin
http://a.com receives no Access-Control-Allow-Origin header at all, so
the header is not the echoed origin. -/
theorem cors_credentials_echo_counterexample :
    corsCred.AllowCredentials = true ∧
    corsCred.allowAllOrigins = false ∧
    validateOrigin corsCred (gs "http://a.com") = true ∧
    (corsStep corsCred ⟨gs "http://a.com", gs "GET"⟩).1.headers
        (gs "Access-Control-Allow-Origin") ≠ [gs "http://a.com"] := by
  refine ⟨rfl, rfl, by decide, ?_⟩
  decide

/-- Claim C3 as amended — for an allowed request under a policy with
AllowCredentials true and the allow-all flag false, the middleware
does not set Access-Control-Allow-Origin at all: the per-request echo
fires only when AllowCredentials is also false, and no other step
writes that header. -/
theorem cors_credentials_no_echo (c : Cors) (req : Request)
    (hne : req.origin ≠ []) (hv : validateOrigin c req.origin = true)
    (hall : c.allowAllOrigins = false) (hcred : c.AllowCredentials = true) :
    (corsStep c req).1.headers (gs "Access-Control-Allow-Origin") = [] := by
  unfold corsStep
  rw [if_neg hne, if_neg (fun h => h hv)]
  by_cases hm : req.method = gs "OPTIONS"
  · rw [if_pos hm]
    exact corsAllowedHeaders_acao_credentials c req.origin true hall hcred
  · rw [if_neg hm]
    exact corsAllowedHeaders_acao_credentials c req.origin false hall hcred

/-- Witness for the amended claim C3. -/
theorem cors_credentials_no_echo_witness :
    (corsStep corsCred ⟨gs "http://a.com", gs "GET"⟩).1.headers
      (gs "Access-Control-Allow-Origin") = [] :=
  cors_credentials_no_echo corsCred ⟨gs "http://a.com", gs "GET"⟩
    (by decide) (by decide) rfl rfl

/-- Claim C5 — a request with a present but rejected origin receives
exactly a 403 response: the pipeline aborts, no downstream handler
runs, no body is written, and the header map is untouched. -/
theorem cors_denied_spec (c : Cors) (req : Request)
    (hne : req.origin ≠ []) (hv : validateOrigin c req.origin = false) :
    corsStep c req = ({ headers := emptyHeader, status := some 403, body := none }, false) ∧
    (∀ k, (corsStep c req).1.headers k = []) ∧
    (corsStep c req).1.body = none ∧
    (∀ downstream, corsApply c req downstream =
      { headers := emptyHeader, status := some 403, body := none }) := by
  have hstep : corsStep c req = ({ headers := emptyHeader, status := some 403, body := none }, false) := by
    unfold corsStep
    rw [if_neg hne, if_pos (by simp [hv])]
  refine ⟨hstep, ?_, ?_, ?_⟩
  · intro k
    rw [hstep]
    rfl
  · rw [hstep]
  · intro downstream
    unfold corsApply
    rw [hstep]
    rfl

/-- Witness for claim C5: an origin outside the list of the
specific-origin policy is refused with a bare 403. -/
theorem cors_denied_spec_witness :
    corsStep corsSpecific ⟨gs "https://b.org", gs "GET"⟩ =
      ({ headers := emptyHeader, status := some 403, body := none }, false) ∧
    (∀ k, (corsStep corsSpecific ⟨gs "https://b.org", gs "GET"⟩).1.headers k = []) ∧
    (corsStep corsSpecific ⟨gs "https://b.org", gs "GET"⟩).1.body = none ∧
    (∀ downstream, corsApply corsSpecific ⟨gs "https://b.org", gs "GET"⟩ downstream =
      { headers := emptyHeader, status := some 403, body := none }) :=
  cors_denied_spec corsSpecific ⟨gs "https://b.org", gs "GET"⟩ (by decide) (by decide)

/-- Claim C6 — an allowed OPTIONS request gets every precomputed
preflight header written to the response, a 200 status and an empty
body, and the pipeline terminates without ever reaching a downstream
handler. -/
theorem cors_preflight_spec (c : Cors) (req : Request)
    (hne : req.origin ≠ []) (hv : validateOrigin c req.origin = true)
    (hm : req.method = gs "OPTIONS") :
    (corsStep c req).2 = false ∧
    (corsStep c req).1.status = some 200 ∧
    (corsStep c req).1.body = none ∧
    (∀ k, generatePreflightHeaders c k ≠ [] →
      (corsStep c req).1.headers k = generatePreflightHeaders c k) ∧
    (∀ downstream, corsApply c req downstream = (corsStep c req).1) := by
  have hstep : corsStep c req =
      ({ headers := corsAllowedHeaders c req.origin true,
         status := some 200, body := none }, false) := by
    unfold corsStep
    rw [if_neg hne, if_neg (fun h => h hv), if_pos hm]
  refine ⟨by rw [hstep], by rw [hstep], by rw [hstep], ?_, ?_⟩
  · intro k hk
    rw [hstep]
    simpa using corsAllowedHeaders_preserves c req.origin true k (by simpa using hk)
  · intro downstream
    unfold corsApply
    rw [hstep]
    rfl

/-- Witness for claim C6: an allowed preflight request against the
specific-origin policy. -/
theorem cors_preflight_spec_witness :
    (corsStep corsSpecific ⟨gs "http://a.com", gs "OPTIONS"⟩).2 = false ∧
    (corsStep corsSpecific ⟨gs "http://a.com", gs "OPTIONS"⟩).1.status = some 200 ∧
    (corsStep corsSpecific ⟨gs "http://a.com", gs "OPTIONS"⟩).1.body = none ∧
    (∀ k, generatePreflightHeaders corsSpecific k ≠ [] →
      (corsStep corsSpecific ⟨gs "http://a.com", gs "OPTIONS"⟩).1.headers k =
        generatePreflightHeaders corsSpecific k) ∧
    (∀ downstream, corsApply corsSpecific ⟨gs "http://a.com", gs "OPTIONS"⟩ downstream =
      (corsStep corsSpecific ⟨gs "http://a.com", gs "OPTIONS"⟩).1) :=
  cors_preflight_spec corsSpecific ⟨gs "http://a.com", gs "OPTIONS"⟩
    (by decide) (by decide) rfl

end Melware
